import Mathlib

/-!
Verification of the algo-trading repository's signal generators and live
trading path.

The source is Python operating on pandas floats; prices and indicator
columns are modelled as `Option ℚ`, with `none` playing the role of IEEE
NaN: arithmetic propagates `none` and every comparison against `none` is
false, exactly as NaN behaves in the source.  Timestamps are modelled as
absolute hour counts (`ℕ`); the `datetime.hour` accessor becomes `t % 24`
and `timedelta(hours=1)` becomes `+ 1`.
-/

/-- NaN-propagating addition on float-like values. -/
def oadd : Option ℚ → Option ℚ → Option ℚ
  | some a, some b => some (a + b)
  | _, _ => none

/-- NaN-propagating subtraction on float-like values. -/
def osub : Option ℚ → Option ℚ → Option ℚ
  | some a, some b => some (a - b)
  | _, _ => none

/-- NaN-propagating multiplication on float-like values. -/
def omul : Option ℚ → Option ℚ → Option ℚ
  | some a, some b => some (a * b)
  | _, _ => none

/-- `a > b` on float-like values; any comparison involving NaN is false. -/
def ogt : Option ℚ → Option ℚ → Bool
  | some a, some b => decide (b < a)
  | _, _ => false

/-- `a < b` on float-like values; any comparison involving NaN is false. -/
def olt : Option ℚ → Option ℚ → Bool
  | some a, some b => decide (a < b)
  | _, _ => false

/-- `a >= b` on float-like values; any comparison involving NaN is false. -/
def oge : Option ℚ → Option ℚ → Bool
  | some a, some b => decide (b ≤ a)
  | _, _ => false

/-- `a <= b` on float-like values; any comparison involving NaN is false. -/
def ole : Option ℚ → Option ℚ → Bool
  | some a, some b => decide (a ≤ b)
  | _, _ => false

/-- Round to the nearest integer, ties to even (Python's `round`). -/
def roundHalfEven (q : ℚ) : ℤ :=
  let n := ⌊q⌋
  let r := q - n
  if r < 1/2 then n
  else if 1/2 < r then n + 1
  else if 2 ∣ n then n else n + 1

/-- Python's `round(q, 5)`: round to 5 decimal places, ties to even. -/
def round5 (q : ℚ) : ℚ := (roundHalfEven (q * 100000) : ℚ) / 100000

/-- NaN-propagating `round(·, 5)`. -/
def oround5 : Option ℚ → Option ℚ
  | some q => some (round5 q)
  | none => none

/-- Modelled from the spec: the order status enum of `src.order_utils.order`
(`OrderStatus`), §3/§4.2 of the spec — `PENDING → FILLED → CLOSED` or
`PENDING → CANCELLED`. -/
inductive OrderStatus where
  | pending
  | filled
  | closed
  | cancelled
deriving DecidableEq, Repr

/-- Modelled from the spec: the order side enum of `src.order_utils.order`
(`OrderSide`), §3 of the spec. -/
inductive OrderSide where
  | long
  | short
deriving DecidableEq, Repr

/-- Modelled from the spec: the `Order` entity of `src.order_utils.order`
(§3 of the spec): creation timestamp, side, entry/stop/target prices,
realized pnl, status and fill/close timestamps.  Prices are float-like
(`Option ℚ`), since the generators can store NaN in them. -/
structure Order where
  order_date : ℕ
  side : OrderSide
  entry : Option ℚ
  sl : Option ℚ
  tp : Option ℚ
  pnl : ℚ
  status : OrderStatus
  fill_date : Option ℕ := none
  close_date : Option ℕ := none
deriving DecidableEq, Repr

/-- Modelled from the spec: `Order.is_long` of `src.order_utils.order`. -/
def Order.is_long (o : Order) : Bool := o.side = OrderSide.long

/-- Modelled from the spec: `Order.is_short` of `src.order_utils.order`. -/
def Order.is_short (o : Order) : Bool := o.side = OrderSide.short

/-- Modelled from the spec: `Order.fill(time)` of `src.order_utils.order`
(§4.2 step 3: on fill, status → FILLED and `fill_date` = the current bar's
timestamp; the fill price is the unchanged `entry`). -/
def Order.fill (o : Order) (t : ℕ) : Order :=
  { o with status := OrderStatus.filled, fill_date := some t }

/-- One hourly bar as seen by `create_orders` in
`src/strategies/london_breakout.py`: the OHLC columns plus the derived
`last_8_high`, `last_8_low` and `ema` columns (float-like, possibly NaN). -/
structure LBar where
  time : ℕ
  op : ℚ
  high : ℚ
  low : ℚ
  close : ℚ
  last_8_high : Option ℚ
  last_8_low : Option ℚ
  ema : Option ℚ
deriving DecidableEq, Repr

/-- The cancellation pass of `create_orders` (london_breakout.py line 59-60):
each PENDING order is set to CANCELLED, others are untouched. -/
def cancelPending (o : Order) : Order :=
  if o.status = OrderStatus.pending then { o with status := OrderStatus.cancelled } else o

/-- The fill pass of `create_orders` (london_breakout.py lines 76-84): a
PENDING long fills when `bar.high > order.entry`, a PENDING short fills when
`bar.low < order.entry`; all other orders are untouched. -/
def tryFill (t : ℕ) (high low : ℚ) (o : Order) : Order :=
  if o.status = OrderStatus.pending then
    if o.is_long then
      if ogt (some high) o.entry then o.fill t else o
    else if o.is_short then
      if olt (some low) o.entry then o.fill t else o
    else o
  else o

/-- The order-creation block of `create_orders` (london_breakout.py lines
62-74), run at the reset hour: computes the buy/sell TP and SL and appends
the long and/or short stop order depending on the EMA filter. -/
def created (adj : ℚ) (verify_ema : Bool) (b : LBar) : List Order :=
  let buy_tp := oround5 (oadd (osub (omul b.last_8_high (some 2)) b.last_8_low) (some adj))
  let buy_sl := b.last_8_low
  let sell_tp := oround5 (osub (osub (omul b.last_8_low (some 2)) b.last_8_high) (some adj))
  let sell_sl := b.last_8_high
  let longOrder : Order :=
    ⟨b.time, OrderSide.long, b.last_8_high, buy_sl, buy_tp, 0, OrderStatus.pending, none, none⟩
  let shortOrder : Order :=
    ⟨b.time, OrderSide.short, b.last_8_low, sell_sl, sell_tp, 0, OrderStatus.pending, none, none⟩
  if verify_ema then
    if oge (some b.low) b.ema then [longOrder]
    else if ole (some b.high) b.ema then [shortOrder]
    else []
  else [longOrder, shortOrder]

/-- The body of `create_orders`' per-bar loop (london_breakout.py lines
53-84): a bar with NaN `last_8_high` is skipped entirely (`continue`); at a
reset-hour (08:00) bar all pending orders are cancelled and the new stop
orders are appended; finally the fill pass runs over all orders. -/
def stepBar (adj : ℚ) (verify_ema : Bool) (orders : List Order) (b : LBar) : List Order :=
  if b.last_8_high = none then orders
  else
    let os :=
      if b.time % 24 = 8 then orders.map cancelPending ++ created adj verify_ema b
      else orders
    os.map (tryFill b.time b.high b.low)

/-- `create_orders(price_data, adj, verify_ema)` of
`src/strategies/london_breakout.py`: fold the per-bar step over the
time-ordered bars, starting from no orders. -/
def create_orders (adj : ℚ) (verify_ema : Bool) (bars : List LBar) : List Order :=
  bars.foldl (stepBar adj verify_ema) []

/-- One hourly row as seen by the order-generation loop of
`src/strategies/macd_crossover.py` (`__main__`): OHLC plus the indicator
columns `macd`, `signal`, `ema_200`, `atr` (float-like, possibly NaN). -/
structure MRow where
  time : ℕ
  op : ℚ
  high : ℚ
  low : ℚ
  close : ℚ
  macd : Option ℚ
  sig : Option ℚ
  ema_200 : Option ℚ
  atr : Option ℚ
deriving DecidableEq, Repr

/-- `comparison = np.where(macd > signal, 1, 0)` (macd_crossover.py line 72);
NaN comparisons are false, so a NaN row gets 0. -/
def comparison (r : MRow) : ℤ := if ogt r.macd r.sig then 1 else 0

/-- `cross = comparison.diff()` at one row (macd_crossover.py line 73): NaN
(`none`) on the first row, else the difference with the previous row. -/
def crossOf (prev : Option MRow) (r : MRow) : Option ℤ :=
  prev.map (fun p => comparison r - comparison p)

/-- `next_open = open.shift(-1)` at one row (macd_crossover.py line 74): the
next row's open, NaN (`none`) on the last row. -/
def nextOpen (nxt : Option MRow) : Option ℚ := nxt.map MRow.op

/-- The loop body of macd_crossover.py lines 78-104 for one row `r`, given
the previous row (for `cross`) and the next row (for `next_open`): emit a
long order on an upward cross below zero above the EMA, a short order on a
downward cross above zero below the EMA. -/
def rowOrders (prev : Option MRow) (r : MRow) (nxt : Option MRow) : List Order :=
  let cross := crossOf prev r
  let entry := nextOpen nxt
  let longs : List Order :=
    if cross = some 1 ∧ ogt (some r.close) r.ema_200 ∧ olt r.macd (some 0) then
      [⟨r.time + 1, OrderSide.long, entry, osub entry r.atr,
        oadd entry (omul r.atr (some (3/2))), 0, OrderStatus.pending, none, none⟩]
    else []
  let shorts : List Order :=
    if cross = some (-1) ∧ olt (some r.close) r.ema_200 ∧ ogt r.macd (some 0) then
      [⟨r.time + 1, OrderSide.short, entry, oadd entry r.atr,
        osub entry (omul r.atr (some (3/2))), 0, OrderStatus.pending, none, none⟩]
    else []
  longs ++ shorts

/-- The order-generation loop of macd_crossover.py lines 77-104, threading
the previous row (the `diff`) and peeking at the next row (the `shift`). -/
def genGo (prev : Option MRow) : List MRow → List Order
  | [] => []
  | r :: rest => rowOrders prev r rest.head? ++ genGo (some r) rest

/-- All orders generated by the MACD crossover script on a row sequence. -/
def genOrders (rows : List MRow) : List Order := genGo none rows

/-- The outcomes of the four external broker calls made inside the `try`
block of `run` in `src/trading/london_breakout.py` (lines 145-153):
`cancel_pending_orders`, `get_trans`, and the buy and sell `placing_order`
calls.  Each is an `Except`: `.error e` models the call raising exception
`e`.  The calls themselves are external REST I/O, out of scope per §6. -/
structure LiveEnv where
  cancelRes : Except String Unit
  transRes : Except String (List (String × ℚ))
  buyRes : Except String Unit
  sellRes : Except String Unit

/-- The `try` block of `run` (london_breakout.py trading script lines
145-153) run against broker outcomes `env`: the calls run in order, the
first exception aborts the rest of the block; the result is the list of
legs actually placed and the exception (if any) reaching the handler.
Placed legs are never un-placed by a later failure. -/
def liveBlock (env : LiveEnv) : List String × Option String :=
  match env.cancelRes with
  | Except.error e => ([], some e)
  | Except.ok _ =>
    match env.transRes with
    | Except.error e => ([], some e)
    | Except.ok _ =>
      match env.buyRes with
      | Except.error e => ([], some e)
      | Except.ok _ =>
        match env.sellRes with
        | Except.error e => (["buy"], some e)
        | Except.ok _ => (["buy", "sell"], none)

/-- The result of one invocation of `run`: which order legs were placed and
what error (if any) was caught and logged by the `except` handler. -/
structure RunOut where
  placed : List String
  loggedError : Option String
deriving DecidableEq, Repr

/-- `run(live_run)` of `src/trading/london_breakout.py` (lines 110-157),
with the weekday and the broker-call outcomes as explicit inputs.  The
result is an `Except`: an `.error` would model an exception escaping `run`;
the `try/except` around the live block catches every exception, logs it and
falls through, so `run` always returns `.ok`. -/
def runLB (live_run : Bool) (weekday : ℕ) (env : LiveEnv) : Except String RunOut :=
  if weekday = 5 ∨ weekday = 6 then Except.ok ⟨[], none⟩
  else if live_run then
    let (placed, err) := liveBlock env
    Except.ok ⟨placed, err⟩
  else Except.ok ⟨[], none⟩

/-! ### Helper lemmas -/

theorem tryFill_of_not_pending (t : ℕ) (high low : ℚ) (o : Order)
    (h : ¬ o.status = OrderStatus.pending) : tryFill t high low o = o := by
  simp [tryFill, h]

theorem getD_of_lt {α : Type} (l : List α) (i : ℕ) (d : α) (h : i < l.length) :
    l.getD i d = l.get ⟨i, h⟩ := by
  rw [List.getD_eq_getElem?_getD, List.getElem?_eq_getElem h]; rfl

/-! ### C4: fill conditions of the breakout fill loop -/

/-- C4: in the breakout fill loop, a PENDING long order becomes FILLED
exactly when `bar.high > entry`, a PENDING short exactly when
`bar.low < entry`; on fill the entry price is unchanged (the fill is at the
entry) and `fill_date` is the current bar's timestamp. -/
theorem fill_loop_semantics (t : ℕ) (high low : ℚ) (o : Order) (e : ℚ)
    (hp : o.status = OrderStatus.pending) (he : o.entry = some e) :
    (o.side = OrderSide.long →
      ((tryFill t high low o).status = OrderStatus.filled ↔ e < high)) ∧
    (o.side = OrderSide.short →
      ((tryFill t high low o).status = OrderStatus.filled ↔ low < e)) ∧
    ((tryFill t high low o).status = OrderStatus.filled →
      (tryFill t high low o).entry = o.entry ∧
      (tryFill t high low o).fill_date = some t) := by
  refine ⟨?_, ?_, ?_⟩
  · intro hs
    by_cases hcmp : e < high <;>
      simp [tryFill, Order.is_long, Order.is_short, Order.fill, ogt, hp, he, hs, hcmp]
  · intro hs
    by_cases hcmp : low < e <;>
      simp [tryFill, Order.is_long, Order.is_short, Order.fill, olt, hp, he, hs, hcmp]
  · cases hs : o.side
    · by_cases hcmp : e < high <;>
        simp [tryFill, Order.is_long, Order.is_short, Order.fill, ogt, hp, he, hs, hcmp]
    · by_cases hcmp : low < e <;>
        simp [tryFill, Order.is_long, Order.is_short, Order.fill, olt, hp, he, hs, hcmp]

theorem fill_loop_semantics_witness :
    ((tryFill 5 2 0 ⟨0, OrderSide.long, some 1, some 0, some 2, 0,
        OrderStatus.pending, none, none⟩).status = OrderStatus.filled) ∧
    ((tryFill 5 2 0 ⟨0, OrderSide.long, some 1, some 0, some 2, 0,
        OrderStatus.pending, none, none⟩).fill_date = some 5) := by
  have h := fill_loop_semantics 5 2 0
    ⟨0, OrderSide.long, some 1, some 0, some 2, 0, OrderStatus.pending, none, none⟩ 1 rfl rfl
  have hf : (tryFill 5 2 0 ⟨0, OrderSide.long, some 1, some 0, some 2, 0,
      OrderStatus.pending, none, none⟩).status = OrderStatus.filled :=
    (h.1 rfl).mpr (by norm_num)
  exact ⟨hf, (h.2.2 hf).2⟩

/-! ### C2: a NaN bar is skipped entirely, fills included -/

/-- C2 (counterexample to the claim as stated): on a bar with NaN
`last_8_high`, a PENDING long order whose fill condition holds
(`bar.high > entry`) is nevertheless left untouched: `create_orders`'
`continue` skips the fill pass as well as signal generation. -/
theorem nan_bar_skips_fills_cex :
    ogt (some (2 : ℚ)) (some (1 : ℚ)) = true ∧
    stepBar 0 false
      [⟨8, OrderSide.long, some 1, some 0, some 3, 0, OrderStatus.pending, none, none⟩]
      ⟨9, 1, 2, 1, 1, none, none, none⟩
      = [⟨8, OrderSide.long, some 1, some 0, some 3, 0, OrderStatus.pending, none, none⟩] := by
  exact ⟨by decide, rfl⟩

/-- C2 (amended): a bar whose `last_8_high` is NaN is skipped entirely —
no order is emitted at it and no fill condition of any existing order is
evaluated against it; the order list passes through unchanged. -/
theorem nan_bar_skipped (adj : ℚ) (ve : Bool) (orders : List Order) (b : LBar)
    (h : b.last_8_high = none) : stepBar adj ve orders b = orders := by
  simp [stepBar, h]

theorem nan_bar_skipped_witness :
    stepBar 0 true
      [⟨8, OrderSide.short, some 1, some 2, some 0, 0, OrderStatus.pending, none, none⟩]
      ⟨10, 1, 2, 0, 1, none, none, none⟩
      = [⟨8, OrderSide.short, some 1, some 2, some 0, 0, OrderStatus.pending, none, none⟩] :=
  nan_bar_skipped 0 true _ _ rfl

/-! ### C3: the reset bar cancels stale pending orders before filling -/

/-- C3: at a (non-skipped) reset-hour bar, every order that was still
PENDING when the bar is reached is CANCELLED by the reset pass, which runs
before the fill pass; in particular such a stale order ends the bar
CANCELLED, never FILLED, whatever the bar's high/low. -/
theorem reset_cancels_stale_pending (adj : ℚ) (ve : Bool) (orders : List Order)
    (b : LBar) (hi : ℚ) (i : ℕ) (d : Order)
    (h8 : b.time % 24 = 8) (hdef : b.last_8_high = some hi)
    (hlen : i < orders.length)
    (hp : (orders.getD i d).status = OrderStatus.pending) :
    ((stepBar adj ve orders b).getD i d).status = OrderStatus.cancelled := by
  rw [getD_of_lt orders i d hlen, List.get_eq_getElem] at hp
  have hmaplen : i < (orders.map cancelPending).length := by simpa using hlen
  simp only [stepBar, hdef, h8]
  rw [if_neg (by simp), if_pos trivial]
  rw [List.getD_eq_getElem?_getD, List.getElem?_map,
    List.getElem?_append_left hmaplen, List.getElem?_map,
    List.getElem?_eq_getElem hlen]
  simp [cancelPending, tryFill, hp]

theorem reset_cancels_stale_pending_witness :
    ((stepBar 0 false
        [⟨0, OrderSide.long, some 1, some 0, some 3, 0, OrderStatus.pending, none, none⟩]
        ⟨32, 1, 5, 1, 1, some 2, some 1, none⟩).getD 0
      ⟨0, OrderSide.long, some 1, some 0, some 3, 0, OrderStatus.pending, none, none⟩).status
      = OrderStatus.cancelled :=
  reset_cancels_stale_pending 0 false _ _ 2 0 _ (by norm_num) rfl (by norm_num) rfl

/-! ### C6: the EMA trend filter emits at most one one-sided order -/

/-- C6: with the trend filter on, the reset-hour bar appends exactly the
orders produced by the filtered creation block; a LONG is created only when
the bar's low is at/above the EMA, a SHORT only when the bar's high is
at/below the EMA, and at most one order is created per reset event. -/
theorem ema_filter_one_sided (adj : ℚ) (orders : List Order) (b : LBar)
    (h8 : b.time % 24 = 8) (hdef : ¬ b.last_8_high = none) :
    stepBar adj true orders b
      = (orders.map cancelPending ++ created adj true b).map
          (tryFill b.time b.high b.low) ∧
    (∀ o ∈ created adj true b, o.side = OrderSide.long →
      oge (some b.low) b.ema = true) ∧
    (∀ o ∈ created adj true b, o.side = OrderSide.short →
      ole (some b.high) b.ema = true) ∧
    (created adj true b).length ≤ 1 := by
  refine ⟨?_, ?_, ?_, ?_⟩
  · simp only [stepBar, h8]
    rw [if_neg hdef, if_pos trivial]
  · intro o ho hs
    simp only [created, eq_self_iff_true, if_true] at ho
    split_ifs at ho with h1 h2
    · exact h1
    · simp only [List.mem_singleton] at ho
      subst ho
      simp at hs
    · simp at ho
  · intro o ho hs
    simp only [created, eq_self_iff_true, if_true] at ho
    split_ifs at ho with h1 h2
    · simp only [List.mem_singleton] at ho
      subst ho
      simp at hs
    · exact h2
    · simp at ho
  · simp only [created]
    split_ifs <;> simp

theorem ema_filter_one_sided_witness :
    stepBar 0 true []
        ⟨8, 1, 5, 3, 4, some 5, some 3, some 2⟩
      = (created 0 true ⟨8, 1, 5, 3, 4, some 5, some 3, some 2⟩).map (tryFill 8 5 3) ∧
    (∀ o ∈ created 0 true ⟨8, 1, 5, 3, 4, some 5, some 3, some 2⟩,
      o.side = OrderSide.long → oge (some (3 : ℚ)) (some (2 : ℚ)) = true) ∧
    (created 0 true ⟨8, 1, 5, 3, 4, some 5, some 3, some 2⟩).length ≤ 1 := by
  have h := ema_filter_one_sided 0 [] ⟨8, 1, 5, 3, 4, some 5, some 3, some 2⟩
    (by norm_num) (by simp)
  exact ⟨by simpa using h.1, h.2.1, h.2.2.2⟩

/-! ### C10: a bar straddling the EMA emits no order at all -/

/-- C10: with the trend filter on, a reset-hour bar whose low is strictly
below the EMA and whose high is strictly above it creates neither the LONG
nor the SHORT order: the reset event emits zero orders and the step only
cancels/fills the existing ones. -/
theorem ema_straddle_emits_none (adj : ℚ) (orders : List Order) (b : LBar)
    (m hi : ℚ) (h8 : b.time % 24 = 8) (hdef : b.last_8_high = some hi)
    (hema : b.ema = some m) (hlow : b.low < m) (hhigh : m < b.high) :
    created adj true b = [] ∧
    stepBar adj true orders b
      = (orders.map cancelPending).map (tryFill b.time b.high b.low) ∧
    (stepBar adj true orders b).length = orders.length := by
  have h1 : oge (some b.low) b.ema = false := by
    simp only [hema, oge, decide_eq_false_iff_not]
    exact not_le.mpr hlow
  have h2 : ole (some b.high) b.ema = false := by
    simp only [hema, ole, decide_eq_false_iff_not]
    exact not_le.mpr hhigh
  have hc : created adj true b = [] := by
    simp [created, h1, h2]
  have hstep : stepBar adj true orders b
      = (orders.map cancelPending).map (tryFill b.time b.high b.low) := by
    simp only [stepBar, h8]
    rw [if_neg (by simp [hdef]), if_pos trivial, hc, List.append_nil]
  exact ⟨hc, hstep, by simp [hstep]⟩

theorem ema_straddle_emits_none_witness :
    created 0 true ⟨8, 1, 5, 1, 4, some 5, some 1, some 2⟩ = [] ∧
    (stepBar 0 true
      [⟨0, OrderSide.long, some 9, some 0, some 10, 0, OrderStatus.pending, none, none⟩]
      ⟨8, 1, 5, 1, 4, some 5, some 1, some 2⟩).length = 1 := by
  have h := ema_straddle_emits_none 0
    [⟨0, OrderSide.long, some 9, some 0, some 10, 0, OrderStatus.pending, none, none⟩]
    ⟨8, 1, 5, 1, 4, some 5, some 1, some 2⟩ 2 5
    (by norm_num) rfl rfl (by norm_num) (by norm_num)
  exact ⟨h.1, by simpa using h.2.2⟩

/-! ### C8: a bar gapping through both entries fills both orders -/

/-- C8: on a non-reset (and non-skipped) bar, a PENDING long whose entry is
below the bar's high and a PENDING short whose entry is above the bar's low
are both filled on that same bar, independently, each at its own entry with
`fill_date` the bar's timestamp; no order is dropped. -/
theorem gap_fills_both (adj : ℚ) (ve : Bool) (orders : List Order) (b : LBar)
    (i j : ℕ) (d : Order) (e1 e2 : ℚ)
    (hno8 : ¬ b.time % 24 = 8) (hdef : ¬ b.last_8_high = none)
    (hlen1 : i < orders.length) (hlen2 : j < orders.length)
    (h1p : (orders.getD i d).status = OrderStatus.pending)
    (h1s : (orders.getD i d).side = OrderSide.long)
    (h1e : (orders.getD i d).entry = some e1) (h1f : e1 < b.high)
    (h2p : (orders.getD j d).status = OrderStatus.pending)
    (h2s : (orders.getD j d).side = OrderSide.short)
    (h2e : (orders.getD j d).entry = some e2) (h2f : b.low < e2) :
    ((stepBar adj ve orders b).getD i d).status = OrderStatus.filled ∧
    ((stepBar adj ve orders b).getD i d).fill_date = some b.time ∧
    ((stepBar adj ve orders b).getD j d).status = OrderStatus.filled ∧
    ((stepBar adj ve orders b).getD j d).fill_date = some b.time ∧
    (stepBar adj ve orders b).length = orders.length := by
  have hstep : stepBar adj ve orders b
      = orders.map (tryFill b.time b.high b.low) := by
    simp only [stepBar]
    rw [if_neg hdef, if_neg hno8]
  have hgd : ∀ k, k < orders.length →
      (stepBar adj ve orders b).getD k d = tryFill b.time b.high b.low (orders.getD k d) := by
    intro k hk
    rw [hstep, List.getD_eq_getElem?_getD, List.getElem?_map,
      List.getElem?_eq_getElem hk, getD_of_lt orders k d hk]
    rfl
  rw [hgd i hlen1, hgd j hlen2, hstep]
  set o1 := orders.getD i d with ho1
  set o2 := orders.getD j d with ho2
  refine ⟨?_, ?_, ?_, ?_, by simp⟩ <;>
    simp [tryFill, Order.is_long, Order.is_short, Order.fill, ogt, olt,
      h1p, h1s, h1e, h1f, h2p, h2s, h2e, h2f]

theorem gap_fills_both_witness :
    ((stepBar 0 false
        [⟨8, OrderSide.long, some 5, some 2, some 8, 0, OrderStatus.pending, none, none⟩,
         ⟨8, OrderSide.short, some 2, some 5, some 0, 0, OrderStatus.pending, none, none⟩]
        ⟨9, 3, 6, 1, 4, some 5, some 2, none⟩).getD 0
        ⟨0, OrderSide.long, none, none, none, 0, OrderStatus.closed, none, none⟩).status
      = OrderStatus.filled ∧
    ((stepBar 0 false
        [⟨8, OrderSide.long, some 5, some 2, some 8, 0, OrderStatus.pending, none, none⟩,
         ⟨8, OrderSide.short, some 2, some 5, some 0, 0, OrderStatus.pending, none, none⟩]
        ⟨9, 3, 6, 1, 4, some 5, some 2, none⟩).getD 1
        ⟨0, OrderSide.long, none, none, none, 0, OrderStatus.closed, none, none⟩).status
      = OrderStatus.filled := by
  have h := gap_fills_both 0 false
    [⟨8, OrderSide.long, some 5, some 2, some 8, 0, OrderStatus.pending, none, none⟩,
     ⟨8, OrderSide.short, some 2, some 5, some 0, 0, OrderStatus.pending, none, none⟩]
    ⟨9, 3, 6, 1, 4, some 5, some 2, none⟩ 0 1
    ⟨0, OrderSide.long, none, none, none, 0, OrderStatus.closed, none, none⟩ 5 2
    (by norm_num) (by simp) (by norm_num) (by norm_num)
    rfl rfl rfl (by norm_num) rfl rfl rfl (by norm_num)
  exact ⟨h.1, h.2.2.1⟩

/-! ### C9: live placement failures are caught, logged, not rolled back -/

/-- C9: the live run never lets a broker exception escape (`run` always
returns normally); when the buy leg has been placed and the sell leg
raises, the error is caught and logged and the buy leg stays placed (no
rollback); when the buy leg itself raises, the error is caught and logged
and no leg is placed. -/
theorem live_failure_caught (wd : ℕ) (env : LiveEnv) :
    (∃ out : RunOut, runLB true wd env = Except.ok out) ∧
    (∀ ts e, ¬ (wd = 5 ∨ wd = 6) →
      env.cancelRes = Except.ok () → env.transRes = Except.ok ts →
      env.buyRes = Except.ok () → env.sellRes = Except.error e →
      runLB true wd env = Except.ok ⟨["buy"], some e⟩) ∧
    (∀ ts e, ¬ (wd = 5 ∨ wd = 6) →
      env.cancelRes = Except.ok () → env.transRes = Except.ok ts →
      env.buyRes = Except.error e →
      runLB true wd env = Except.ok ⟨[], some e⟩) := by
  refine ⟨?_, ?_, ?_⟩
  · by_cases hw : wd = 5 ∨ wd = 6
    · exact ⟨⟨[], none⟩, by simp [runLB, hw]⟩
    · rcases hlb : liveBlock env with ⟨p, err⟩
      exact ⟨⟨p, err⟩, by simp [runLB, hw, hlb]⟩
  · intro ts e hw hc ht hb hs
    simp [runLB, hw, liveBlock, hc, ht, hb, hs]
  · intro ts e hw hc ht hb
    simp [runLB, hw, liveBlock, hc, ht, hb]

theorem live_failure_caught_witness :
    runLB true 2
        ⟨Except.ok (), Except.ok [], Except.ok (), Except.error "api down"⟩
      = Except.ok ⟨["buy"], some "api down"⟩ :=
  (live_failure_caught 2
    ⟨Except.ok (), Except.ok [], Except.ok (), Except.error "api down"⟩).2.1
    [] "api down" (by norm_num) rfl rfl rfl rfl

/-! ### C1: the breakout reset orders and their prices -/

/-- C1 (counterexample to the claim as stated): with a nonzero adjustment,
the reset bar's LONG order is created with entry equal to the rolling high
itself — the adjustment is not added to the entry (it only enters the
take-profit), so no LONG order with entry = rolling high + adjustment
exists. -/
theorem breakout_entry_no_adjustment_cex :
    (stepBar (1/10000) false [] ⟨8, 1, 11/10, 1, 1, some (11/10), some 1, none⟩).map
        (fun o => (o.side, o.entry))
      = [(OrderSide.long, some (11/10 : ℚ)), (OrderSide.short, some (1 : ℚ))] ∧
    oadd (some ((11 : ℚ)/10)) (some ((1 : ℚ)/10000)) ≠ some ((11 : ℚ)/10) := by
  constructor
  · have c1 : ogt (some ((11 : ℚ)/10)) (some ((11 : ℚ)/10)) = false := by
      norm_num [ogt]
    have c2 : olt (some (1 : ℚ)) (some (1 : ℚ)) = false := by
      norm_num [olt]
    simp [stepBar, created, tryFill, Order.is_long, Order.is_short,
      oadd, osub, omul, oround5, c1, c2]
  · simp only [oadd, Option.some_inj]
    norm_num

/-- C1 (amended): at a reset-hour bar with defined rolling high/low and the
trend filter off, `create_orders` appends exactly one LONG order with entry
= rolling high (no adjustment), stop = rolling low, target =
round5(high + (high − low) + adjustment), and exactly one SHORT order with
entry = rolling low (no adjustment), stop = rolling high, target =
round5(low − (high − low) − adjustment); the pre-existing orders only pass
through the cancel and fill passes. -/
theorem breakout_reset_orders (adj : ℚ) (orders : List Order) (b : LBar)
    (hi lo : ℚ) (h8 : b.time % 24 = 8)
    (hh : b.last_8_high = some hi) (hl : b.last_8_low = some lo) :
    stepBar adj false orders b
      = (orders.map cancelPending ++
          ([⟨b.time, OrderSide.long, some hi, some lo,
             some (round5 (hi + (hi - lo) + adj)), 0, OrderStatus.pending, none, none⟩,
            ⟨b.time, OrderSide.short, some lo, some hi,
             some (round5 (lo - (hi - lo) - adj)), 0, OrderStatus.pending, none, none⟩]
           : List Order)).map (tryFill b.time b.high b.low) := by
  have e1 : hi * 2 - lo + adj = hi + (hi - lo) + adj := by ring
  have e2 : lo * 2 - hi - adj = lo - (hi - lo) - adj := by ring
  simp only [stepBar, h8]
  rw [if_neg (by simp [hh]), if_pos trivial]
  simp [created, hh, hl, omul, osub, oadd, oround5, e1, e2]

theorem breakout_reset_orders_witness :
    stepBar 0 false [] ⟨8, 1, 2, 1, 1, some (11/10), some 1, none⟩
      = ([⟨8, OrderSide.long, some (11/10), some 1,
           some (round5 ((11:ℚ)/10 + ((11:ℚ)/10 - 1) + 0)), 0, OrderStatus.pending, none, none⟩,
          ⟨8, OrderSide.short, some 1, some (11/10),
           some (round5 ((1:ℚ) - ((11:ℚ)/10 - 1) - 0)), 0, OrderStatus.pending, none, none⟩]
         : List Order).map (tryFill 8 2 1) := by
  have h := breakout_reset_orders 0 [] ⟨8, 1, 2, 1, 1, some (11/10), some 1, none⟩
    (11/10) 1 (by norm_num) rfl rfl
  simpa using h

/-! ### MACD crossover helper lemmas -/

theorem rowOrders_order_date (prev : Option MRow) (r : MRow) (nxt : Option MRow) :
    ∀ o ∈ rowOrders prev r nxt, o.order_date = r.time + 1 := by
  intro o ho
  simp only [rowOrders, List.mem_append] at ho
  rcases ho with h | h
  · split_ifs at h with hc
    · simp only [List.mem_singleton] at h
      subst h
      rfl
    · simp at h
  · split_ifs at h with hc
    · simp only [List.mem_singleton] at h
      subst h
      rfl
    · simp at h

theorem genGo_cons (prev : Option MRow) (r : MRow) (rest : List MRow) :
    genGo prev (r :: rest) = rowOrders prev r rest.head? ++ genGo (some r) rest := rfl

theorem genGo_filter_nil (T : ℕ) (rows : List MRow) :
    ∀ prev, (∀ x ∈ rows, ¬ x.time + 1 = T) →
      (genGo prev rows).filter (fun o => o.order_date == T) = [] := by
  induction rows with
  | nil => intro prev _; rfl
  | cons r rest ih =>
    intro prev h
    simp only [genGo, List.filter_append]
    rw [ih (some r) (fun x hx => h x (List.mem_cons_of_mem r hx)), List.append_nil,
      List.filter_eq_nil_iff]
    intro o ho
    have hd := rowOrders_order_date prev r rest.head? o ho
    simp [hd, h r (List.mem_cons_self r rest)]

theorem genGo_filter_skip (T : ℕ) (x : MRow) (rest : List MRow) (prev : Option MRow)
    (hx : ¬ x.time + 1 = T) :
    (genGo prev (x :: rest)).filter (fun o => o.order_date == T)
      = (genGo (some x) rest).filter (fun o => o.order_date == T) := by
  have h0 : (rowOrders prev x rest.head?).filter (fun o => o.order_date == T) = [] := by
    rw [List.filter_eq_nil_iff]
    intro o ho
    have hd := rowOrders_order_date prev x rest.head? o ho
    simp [hd, hx]
  simp only [genGo, List.filter_append, h0, List.nil_append]

theorem genGo_filter_prefix (T : ℕ) (tail : List MRow) :
    ∀ (pre : List MRow) (prev : Option MRow), (∀ x ∈ pre, ¬ x.time + 1 = T) →
      ∃ prev2, (genGo prev (pre ++ tail)).filter (fun o => o.order_date == T)
        = (genGo prev2 tail).filter (fun o => o.order_date == T) := by
  intro pre
  induction pre with
  | nil => intro prev _; exact ⟨prev, rfl⟩
  | cons x pre' ih =>
    intro prev h
    rw [List.cons_append,
      genGo_filter_skip T x (pre' ++ tail) prev (h x (List.mem_cons_self x pre'))]
    exact ih (some x) (fun y hy => h y (List.mem_cons_of_mem x hy))

/-! ### C5: the MACD crossover emissions -/

/-- C5: on a strictly time-ascending row sequence, when the MACD line
crosses above its signal line at row `r` (comparison flips 0 → 1 from the
previous row `p`) with the close above the 200-EMA and MACD below zero, the
generator emits exactly one PENDING LONG order dated one hour after `r`,
with entry the next row's open, stop = entry − ATR and target =
entry + 1.5·ATR; symmetrically, a downward cross (1 → 0) with close below
the EMA and MACD above zero emits exactly one PENDING SHORT order with the
signs inverted. -/
theorem macd_crossover_emits (pre : List MRow) (p r nxt : MRow) (post : List MRow)
    (hpair : List.Pairwise (fun a b : MRow => a.time < b.time)
      (pre ++ p :: r :: nxt :: post)) :
    (comparison p = 0 → comparison r = 1 →
      ogt (some r.close) r.ema_200 = true → olt r.macd (some 0) = true →
      (genOrders (pre ++ p :: r :: nxt :: post)).filter
          (fun o => o.order_date == r.time + 1)
        = ([⟨r.time + 1, OrderSide.long, some nxt.op, osub (some nxt.op) r.atr,
             oadd (some nxt.op) (omul r.atr (some (3/2))), 0, OrderStatus.pending,
             none, none⟩] : List Order)) ∧
    (comparison p = 1 → comparison r = 0 →
      olt (some r.close) r.ema_200 = true → ogt r.macd (some 0) = true →
      (genOrders (pre ++ p :: r :: nxt :: post)).filter
          (fun o => o.order_date == r.time + 1)
        = ([⟨r.time + 1, OrderSide.short, some nxt.op, oadd (some nxt.op) r.atr,
             osub (some nxt.op) (omul r.atr (some (3/2))), 0, OrderStatus.pending,
             none, none⟩] : List Order)) := by
  rcases List.pairwise_append.mp hpair with ⟨hpre, htail, hsplit⟩
  rcases List.pairwise_cons.mp htail with ⟨hp_lt, htail2⟩
  rcases List.pairwise_cons.mp htail2 with ⟨hr_lt, _⟩
  have hpre_ne : ∀ x ∈ pre, ¬ x.time + 1 = r.time + 1 := by
    intro x hx hEq
    have := hsplit x hx r (by simp)
    omega
  have hp_ne : ¬ p.time + 1 = r.time + 1 := by
    have := hp_lt r (by simp)
    omega
  have hrest_ne : ∀ x ∈ nxt :: post, ¬ x.time + 1 = r.time + 1 := by
    intro x hx hEq
    have := hr_lt x hx
    omega
  obtain ⟨prev2, hpp⟩ :=
    genGo_filter_prefix (r.time + 1) (p :: r :: nxt :: post) pre none hpre_ne
  have hmain : (genOrders (pre ++ p :: r :: nxt :: post)).filter
      (fun o => o.order_date == r.time + 1)
      = (rowOrders (some p) r (some nxt)).filter
          (fun o => o.order_date == r.time + 1) := by
    rw [genOrders, hpp, genGo_filter_skip (r.time + 1) p (r :: nxt :: post) prev2 hp_ne,
      genGo_cons, List.filter_append,
      genGo_filter_nil (r.time + 1) (nxt :: post) (some r) hrest_ne, List.append_nil,
      List.head?_cons]
  constructor
  · intro hcp hcr hema hmacd
    rw [hmain]
    simp [rowOrders, crossOf, nextOpen, hcp, hcr, hema, hmacd, List.filter]
  · intro hcp hcr hema hmacd
    rw [hmain]
    simp [rowOrders, crossOf, nextOpen, hcp, hcr, hema, hmacd, List.filter]

theorem macd_crossover_emits_witness :
    (genOrders [⟨0, 1, 1, 1, 1, some (-2), some (-1), some 0, some 1⟩,
                ⟨1, 1, 1, 1, 2, some (-1), some (-2), some 1, some 1⟩,
                ⟨2, 5, 1, 1, 1, none, none, none, none⟩]).filter
        (fun o => o.order_date == 2)
      = ([⟨2, OrderSide.long, some 5, osub (some 5) (some 1),
           oadd (some 5) (omul (some 1) (some (3/2))), 0, OrderStatus.pending,
           none, none⟩] : List Order) := by
  have h := macd_crossover_emits []
    ⟨0, 1, 1, 1, 1, some (-2), some (-1), some 0, some 1⟩
    ⟨1, 1, 1, 1, 2, some (-1), some (-2), some 1, some 1⟩
    ⟨2, 5, 1, 1, 1, none, none, none, none⟩ []
    (by norm_num [List.pairwise_cons])
  exact h.1 (by norm_num [comparison, ogt]) (by norm_num [comparison, ogt])
    (by norm_num [ogt]) (by norm_num [olt])

/-! ### C7: undefined indicators and the crossover generator -/

/-- C7 (counterexample to the claim as stated): at a crossing row that is
the last row (undefined next-bar open) and has undefined ATR, the generator
still emits an order — with NaN entry, stop and target — rather than
skipping the bar. -/
theorem macd_nan_emits_cex :
    genOrders [⟨0, 1, 1, 1, 1, some (-2), some (-1), some 0, none⟩,
               ⟨1, 1, 1, 1, 2, some (-1), some (-2), some 1, none⟩]
      = ([⟨2, OrderSide.long, none, none, none, 0, OrderStatus.pending, none, none⟩]
         : List Order) := by
  decide

/-- C7 (amended): a row with no defined cross (the first row), or with
undefined 200-EMA, or with undefined MACD, emits no order; but an undefined
ATR or an undefined next-bar open does not suppress emission — the order is
then emitted with undefined (NaN) prices. -/
theorem macd_nan_skips (r : MRow) (nxt : Option MRow) :
    (rowOrders none r nxt = []) ∧
    (∀ prev, r.ema_200 = none → rowOrders prev r nxt = []) ∧
    (∀ prev, r.macd = none → rowOrders prev r nxt = []) := by
  refine ⟨?_, ?_, ?_⟩
  · simp [rowOrders, crossOf]
  · intro prev hema
    simp [rowOrders, hema, ogt, olt]
  · intro prev hmacd
    simp [rowOrders, hmacd, ogt, olt]

theorem macd_nan_skips_witness :
    rowOrders (some ⟨0, 1, 1, 1, 1, some (-2), some (-1), some 0, some 1⟩)
      ⟨1, 1, 1, 1, 2, some (-1), some (-2), none, some 1⟩ none = [] :=
  (macd_nan_skips ⟨1, 1, 1, 1, 2, some (-1), some (-2), none, some 1⟩ none).2.1
    (some ⟨0, 1, 1, 1, 1, some (-2), some (-1), some 0, some 1⟩) rfl
